import Mathlib

/-!
Verification development for the orchestration-and-recombination engine of
`resqpy/multiprocessing/multiprocessing.py`.

The two source functions under study are `rm_tree` (recursive scratch-directory
deletion) and `function_multiprocessing` (task dispatch, result collection,
sorting by reported index, recombination into a destination store, cleanup).

The shallow embedding below is a direct translation of the source:

* Python dicts (the caller-supplied keyword-argument mappings) become
  association lists with in-place-or-append update, `dictSet` / `dictGet`.
* A task result is the 4-tuple `(index, success, epc_file, uuid_list)`
  documented in the source docstring, accessed positionally in the source
  (`result[0]` .. `result[3]`).
* `sorted(results, key = lambda x: x[0])` becomes the stable insertion sort
  `sortResults` (Python's sort is stable; a stable insertion sort computes the
  same list).
* `results = [call.result() for call in c]` becomes `collectResults`: the
  futures are awaited in submission order and the first raised exception
  propagates, aborting collection.
* The epc stores on disk become `StoreMap`, a finite map from epc path to the
  list of objects the store holds; `Model(epc_file = p)` becomes `openStore`
  (which fails when no store exists at `p`, as the constructor raises).
* Exceptions are `Except String`.
* The filesystem of scratch directories is the list of directory names that
  currently exist; `tempfile.mkdtemp()` becomes an injected allocator
  `alloc : Nat → String` giving the name created for task `i`.
-/

namespace Resqpy

/-- A value stored in a keyword-argument dictionary: the source writes a string
(`kwargs["tmp_dir"] = dirpath`) and a natural number (`kwargs["index"] = i`)
into the caller's dicts; other caller-supplied values are opaque strings. -/
inductive Val where
  | str : String → Val
  | nat : Nat → Val
deriving DecidableEq, Repr

/-- A Python dict with string keys, as an insertion-ordered association list. -/
abbrev KwArgs := List (String × Val)

/-- Python `d[k]` lookup (first binding of the key wins; keys are unique by
construction of `dictSet`). -/
def dictGet (d : KwArgs) (k : String) : Option Val :=
  match d with
  | [] => none
  | (k1, v) :: rest => if k1 = k then some v else dictGet rest k

/-- Python `d[k] = v`: update the existing binding in place, else append. -/
def dictSet (d : KwArgs) (k : String) (v : Val) : KwArgs :=
  match d with
  | [] => [(k, v)]
  | (k1, v1) :: rest => if k1 = k then (k1, v) :: rest else (k1, v1) :: dictSet rest k v

/-- The 4-tuple each task function returns, per the source docstring:
index, success, epc file path (or None), uuid list (or None). -/
structure TaskResult where
  index : Nat
  success : Bool
  epc : Option String
  uuids : Option (List String)
deriving DecidableEq, Repr

/-- Modelled from the spec: an object held in an artifact store (the domain
model `resqpy.model` is not under `src/`).  `uuid` is the object identifier,
`content` stands for the structural/semantic equivalence class used by
consolidation (two objects are equivalent iff their `content` is equal), and
`origin` records the index of the task that produced the object (carried
verbatim by copying, used to trace the surviving representative). -/
structure Obj where
  uuid : String
  content : Nat
  origin : Nat
deriving DecidableEq, Repr

/-- The contents of one epc artifact store. -/
abbrev Store := List Obj

/-- The epc stores present on disk: a map from epc path to store contents. -/
abbrev StoreMap := List (String × Store)

/-- Modelled from the spec: `Model(epc_file = p)` opens the store at `p`; the
constructor raises when no store exists there, modelled by `none`. -/
def openStore (stores : StoreMap) (p : String) : Option Store :=
  (stores.find? (fun e => e.1 == p)).map (fun e => e.2)

/-- Lines 112-114 of the source: `uuids = uuids_list[i]; if uuids is None:
uuids = model.uuids()` — `model.uuids()` (not under `src/`) is modelled from
the spec as all object identifiers present in the task's store. -/
def uuidsOf (r : TaskResult) (src : Store) : List String :=
  match r.uuids with
  | none => src.map (fun o => o.uuid)
  | some us => us

/-- Modelled from the spec: the effect of one `copy_uuid_from_other_model` call
on the destination contents (`resqpy.model` is not under `src/`).  With
`consolidate` true, an object equivalent to one already present is not
duplicated (the existing entry survives as the representative); otherwise the
object is appended verbatim. -/
def impStep (consolidate : Bool) (dest : Store) (o : Obj) : Store :=
  if consolidate && dest.any (fun q => q.content == o.content) then dest
  else dest ++ [o]

/-- Modelled from the spec: `Model.copy_uuid_from_other_model` — look the uuid
up in the source store (raising when absent) and import it via `impStep`. -/
def copy_uuid_from_other_model (dest src : Store) (u : String) (consolidate : Bool) :
    Except String Store :=
  match src.find? (fun o => o.uuid == u) with
  | none => Except.error ("uuid not found: " ++ u)
  | some o => Except.ok (impStep consolidate dest o)

/-- Lines 115-116 of the source: `for uuid in uuids:
model_recombined.copy_uuid_from_other_model(...)`. -/
def copyUuids (dest src : Store) (us : List String) (consolidate : Bool) :
    Except String Store :=
  match us with
  | [] => Except.ok dest
  | u :: rest =>
    match copy_uuid_from_other_model dest src u consolidate with
    | Except.error e => Except.error e
    | Except.ok d => copyUuids d src rest consolidate

/-- Lines 108-116 of the source: iterate over the (sorted) results; skip a
result iff its epc entry is `None`; otherwise open its store and copy the
resolved uuids into the destination.  Any raise propagates. -/
def mergeLoop (stores : StoreMap) (consolidate : Bool) (rs : List TaskResult)
    (dest : Store) : Except String Store :=
  match rs with
  | [] => Except.ok dest
  | r :: rest =>
    match r.epc with
    | none => mergeLoop stores consolidate rest dest
    | some p =>
      match openStore stores p with
      | none => Except.error ("cannot open epc: " ++ p)
      | some src =>
        match copyUuids dest src (uuidsOf r src) consolidate with
        | Except.error e => Except.error e
        | Except.ok d => mergeLoop stores consolidate rest d

/-- One step of line 94's stable sort: insert `r` after every already-placed
element whose index is strictly smaller (equal keys keep collection order,
as Python's stable `sorted` does). -/
def insertByIndex (r : TaskResult) (l : List TaskResult) : List TaskResult :=
  match l with
  | [] => [r]
  | x :: xs => if x.index < r.index then x :: insertByIndex r xs else r :: x :: xs

/-- Line 94 of the source: `results = list(sorted(results, key = lambda x:
x[0]))`, as a stable insertion sort on the reported index. -/
def sortResults (l : List TaskResult) : List TaskResult :=
  match l with
  | [] => []
  | r :: rs => insertByIndex r (sortResults rs)

/-- Line 89 of the source: `results = [call.result() for call in c]` — await
each handle in submission order; the first uncaught task exception propagates
out of the list comprehension, aborting collection. -/
def collectResults (outcomes : List (Except String TaskResult)) :
    Except String (List TaskResult) :=
  match outcomes with
  | [] => Except.ok []
  | o :: os =>
    match o with
    | Except.error e => Except.error e
    | Except.ok r =>
      match collectResults os with
      | Except.error e => Except.error e
      | Except.ok rs => Except.ok (r :: rs)

/-- Lines 68-73 of the source: for each position `i`, allocate a scratch
directory and mutate the caller's dict in place, setting `"tmp_dir"` then
`"index"`.  `k` is the position of the first remaining dict. -/
def injectTmp (alloc : Nat → String) (k : Nat) (l : List KwArgs) : List KwArgs :=
  match l with
  | [] => []
  | kw :: rest =>
    dictSet (dictSet kw "tmp_dir" (Val.str (alloc k))) "index" (Val.nat k)
      :: injectTmp alloc (k + 1) rest

/-- Everything observable about one call of `function_multiprocessing`:
the final state of the caller's keyword-argument dicts (the source mutates
them in place, so this state is what the caller sees after the call), the
returned success list paired with the persisted destination store — or the
propagated exception — and the final set of existing scratch directories. -/
structure RunOutput where
  kwargsFinal : List KwArgs
  outcome : Except String (List Bool × Store)
  fsFinal : List String
deriving Repr

/-- The source `function_multiprocessing`, lines 31-127.  Embedding of the
parameters: the opaque `function`/`cluster` pair is replaced by `outcomes`,
the per-task collection outcomes in submission order (`Except.error` when the
task function raised); `recombined_epc` is replaced by `dest0`, the contents
of the opened-or-created destination store (lines 101-105; `[]` for a fresh
destination); `tempfile.mkdtemp()` is the allocator `alloc`; `stores` is the
on-disk map of task-produced epc stores; `fs0` lists the directories existing
before the call.  Lines 76-87 (worker counts, numba thread environment) have
no observable effect on the modelled state.  Note that the cleanup loop
(lines 120-121) runs only after the merge loop completed without raising. -/
def function_multiprocessing (kwargs_list : List KwArgs) (alloc : Nat → String)
    (outcomes : List (Except String TaskResult)) (stores : StoreMap)
    (dest0 : Store) (consolidate : Bool) (fs0 : List String) : RunOutput :=
  let kwargsFinal := injectTmp alloc 0 kwargs_list
  let tmpDirs := (List.range kwargs_list.length).map alloc
  let fs1 := fs0 ++ tmpDirs
  match collectResults outcomes with
  | Except.error e => ⟨kwargsFinal, Except.error e, fs1⟩
  | Except.ok results =>
    let sorted := sortResults results
    let successList := sorted.map (fun r => r.success)
    match mergeLoop stores consolidate sorted dest0 with
    | Except.error e => ⟨kwargsFinal, Except.error e, fs1⟩
    | Except.ok dest =>
      ⟨kwargsFinal, Except.ok (successList, dest),
        tmpDirs.foldl (fun f d => f.erase d) fs1⟩

/-- A filesystem entry for the `rm_tree` model: a file or a directory with
ordered children.  `locked` marks an entry the operating system refuses to
delete (`unlink`/`rmdir` raises on it) — `rm_tree` must tolerate contents it
did not create itself. -/
inductive Entry where
  | file : String → Bool → Entry
  | dir : String → Bool → List Entry → Entry
deriving Repr

mutual

/-- Lines 13-28 of the source: `rm_tree` iterates over the children; a file
child is unlinked, a directory child is recursed into; finally the (now empty)
directory itself is removed.  A raised `OSError` propagates immediately: the
error value carries the message and what remains undeleted of the entry. -/
def rm_tree (e : Entry) : Except (String × Entry) Unit :=
  match e with
  | Entry.file n locked =>
    if locked then Except.error ("unlink " ++ n, Entry.file n locked) else Except.ok ()
  | Entry.dir n locked cs =>
    match rmChildren cs with
    | Except.error (m, rem) => Except.error (m, Entry.dir n locked rem)
    | Except.ok _ =>
      if locked then Except.error ("rmdir " ++ n, Entry.dir n locked [])
      else Except.ok ()

/-- The `for child in path.iterdir()` loop of `rm_tree`: children are processed
left to right; the first failure aborts the loop, leaving the failed child's
remains and every later sibling untouched. -/
def rmChildren (cs : List Entry) : Except (String × List Entry) Unit :=
  match cs with
  | [] => Except.ok ()
  | c :: rest =>
    match rm_tree c with
    | Except.error (m, c1) => Except.error (m, c1 :: rest)
    | Except.ok _ =>
      match rmChildren rest with
      | Except.error (m, rem) => Except.error (m, rem)
      | Except.ok _ => Except.ok ()

end

mutual

/-- Every flag in the entry is unlocked: deletion of it will fully succeed. -/
def entryUnlocked (e : Entry) : Bool :=
  match e with
  | Entry.file _ locked => !locked
  | Entry.dir _ locked cs => !locked && childrenUnlocked cs

/-- Every flag among the entries is unlocked. -/
def childrenUnlocked (cs : List Entry) : Bool :=
  match cs with
  | [] => true
  | c :: rest => entryUnlocked c && childrenUnlocked rest

end

/-- The merge of one result raises no exception: its epc (when present) opens,
and every resolved uuid exists in the opened store. -/
def mergeOkB (stores : StoreMap) (r : TaskResult) : Bool :=
  match r.epc with
  | none => true
  | some p =>
    match openStore stores p with
    | none => false
    | some src => (uuidsOf r src).all (fun u => (src.find? (fun o => o.uuid == u)).isSome)

/-- The objects the merge of one result copies into the destination, in copy
order: the resolution of `uuidsOf` against the task's opened store. -/
def ImportsOf (stores : StoreMap) (r : TaskResult) : List Obj :=
  match r.epc with
  | none => []
  | some p =>
    match openStore stores p with
    | none => []
    | some src => (uuidsOf r src).filterMap (fun u => src.find? (fun o => o.uuid == u))

/-- The objects the whole merge loop copies, in processing order. -/
def importsAll (stores : StoreMap) (rs : List TaskResult) : List Obj :=
  match rs with
  | [] => []
  | r :: rest => ImportsOf stores r ++ importsAll stores rest

instance {ε α : Type} [DecidableEq ε] [DecidableEq α] : DecidableEq (Except ε α) := fun a b =>
  match a, b with
  | Except.error e1, Except.error e2 =>
    if h : e1 = e2 then isTrue (congrArg Except.error h)
    else isFalse (fun hh => h (Except.error.inj hh))
  | Except.error _, Except.ok _ => isFalse (fun hh => Except.noConfusion hh)
  | Except.ok _, Except.error _ => isFalse (fun hh => Except.noConfusion hh)
  | Except.ok a1, Except.ok a2 =>
    if h : a1 = a2 then isTrue (congrArg Except.ok h)
    else isFalse (fun hh => h (Except.ok.inj hh))

/-! ### Dictionary lemmas (in-place mutation of the caller's kwargs dicts) -/

theorem dictGet_dictSet_self (d : KwArgs) (k : String) (v : Val) :
    dictGet (dictSet d k v) k = some v := by
  induction d with
  | nil => simp [dictGet, dictSet]
  | cons hd rest ih =>
    obtain ⟨k1, v1⟩ := hd
    by_cases h : k1 = k
    · subst h; simp [dictGet, dictSet]
    · simp [dictGet, dictSet, h, ih]

theorem dictGet_dictSet_ne (d : KwArgs) (k k2 : String) (v : Val) (h : k ≠ k2) :
    dictGet (dictSet d k v) k2 = dictGet d k2 := by
  induction d with
  | nil => simp [dictGet, dictSet, h]
  | cons hd rest ih =>
    obtain ⟨k1, v1⟩ := hd
    by_cases h1 : k1 = k
    · subst h1
      have h2 : ¬ k1 = k2 := h
      simp [dictGet, dictSet, h2]
    · simp [dictGet, dictSet, h1, ih]

theorem injectTmp_getElem (alloc : Nat → String) :
    ∀ (l : List KwArgs) (k i : Nat),
      (injectTmp alloc k l)[i]? = l[i]?.map (fun kw =>
        dictSet (dictSet kw "tmp_dir" (Val.str (alloc (k + i)))) "index" (Val.nat (k + i)))
  | [], _, _ => by simp [injectTmp]
  | _ :: _, _, 0 => by simp [injectTmp]
  | _ :: rest, k, i + 1 => by
    have h : k + 1 + i = k + (i + 1) := by omega
    simp only [injectTmp, List.getElem?_cons_succ, injectTmp_getElem alloc rest (k + 1) i, h]

theorem collectResults_map_ok (l : List TaskResult) :
    collectResults (l.map Except.ok) = Except.ok l := by
  induction l with
  | nil => simp [collectResults]
  | cons r rs ih => simp [collectResults, ih]

/-! ### Lemmas about line 94's sort by reported index -/

theorem insertByIndex_perm (r : TaskResult) (l : List TaskResult) :
    (insertByIndex r l).Perm (r :: l) := by
  induction l with
  | nil => exact List.Perm.refl _
  | cons x xs ih =>
    by_cases h : x.index < r.index
    · simp only [insertByIndex, if_pos h]
      exact (ih.cons x).trans (List.Perm.swap r x xs)
    · simp only [insertByIndex, if_neg h]
      exact List.Perm.refl _

theorem sortResults_perm (l : List TaskResult) : (sortResults l).Perm l := by
  induction l with
  | nil => exact List.Perm.refl _
  | cons r rs ih => exact (insertByIndex_perm r (sortResults rs)).trans (ih.cons r)

theorem insertByIndex_pairwise (r : TaskResult) (l : List TaskResult)
    (h : l.Pairwise (fun a b => a.index ≤ b.index)) :
    (insertByIndex r l).Pairwise (fun a b => a.index ≤ b.index) := by
  induction l with
  | nil => simp [insertByIndex]
  | cons x xs ih =>
    rw [List.pairwise_cons] at h
    by_cases hlt : x.index < r.index
    · simp only [insertByIndex, if_pos hlt]
      rw [List.pairwise_cons]
      refine ⟨?_, ih h.2⟩
      intro z hz
      rcases List.mem_cons.mp ((insertByIndex_perm r xs).mem_iff.mp hz) with hz1 | hz2
      · rw [hz1]; exact Nat.le_of_lt hlt
      · exact h.1 z hz2
    · simp only [insertByIndex, if_neg hlt]
      rw [List.pairwise_cons]
      refine ⟨?_, List.pairwise_cons.mpr h⟩
      intro z hz
      rcases List.mem_cons.mp hz with hz1 | hz2
      · rw [hz1]; exact Nat.le_of_not_lt hlt
      · exact Nat.le_trans (Nat.le_of_not_lt hlt) (h.1 z hz2)

theorem sortResults_pairwise (l : List TaskResult) :
    (sortResults l).Pairwise (fun a b => a.index ≤ b.index) := by
  induction l with
  | nil => simp [sortResults]
  | cons r rs ih => exact insertByIndex_pairwise r (sortResults rs) ih

theorem sorted_nodup_eq :
    ∀ (l1 l2 : List TaskResult), l1.Perm l2 →
      l1.Pairwise (fun a b => a.index ≤ b.index) →
      l2.Pairwise (fun a b => a.index ≤ b.index) →
      (l1.map (fun r => r.index)).Nodup → l1 = l2
  | [], l2, hp, _, _, _ => (hp.symm.eq_nil).symm
  | x :: xs, [], hp, _, _, _ => absurd hp.eq_nil (by simp)
  | x :: xs, y :: ys, hp, h1, h2, hnd => by
    have hnd1 : x.index ∉ xs.map (fun r => r.index) ∧ (xs.map (fun r => r.index)).Nodup := by
      rw [List.map_cons, List.nodup_cons] at hnd
      exact hnd
    by_cases hxy : x = y
    · subst hxy
      have htail : xs = ys :=
        sorted_nodup_eq xs ys hp.cons_inv (List.pairwise_cons.mp h1).2
          (List.pairwise_cons.mp h2).2 hnd1.2
      rw [htail]
    · exfalso
      have hxmem : x ∈ y :: ys := hp.mem_iff.mp (List.mem_cons_self x xs)
      have hymem : y ∈ x :: xs := hp.symm.mem_iff.mp (List.mem_cons_self y ys)
      have hxys : x ∈ ys := by
        rcases List.mem_cons.mp hxmem with h | h
        · exact absurd h hxy
        · exact h
      have hyxs : y ∈ xs := by
        rcases List.mem_cons.mp hymem with h | h
        · exact absurd h.symm hxy
        · exact h
      have hle1 : x.index ≤ y.index := (List.pairwise_cons.mp h1).1 y hyxs
      have hle2 : y.index ≤ x.index := (List.pairwise_cons.mp h2).1 x hxys
      have heq : y.index = x.index := Nat.le_antisymm hle2 hle1
      have hmem : x.index ∈ xs.map (fun r => r.index) :=
        heq ▸ List.mem_map_of_mem (fun r => r.index) hyxs
      exact hnd1.1 hmem

theorem sortResults_congr (l1 l2 : List TaskResult) (hp : l1.Perm l2)
    (hnd : (l1.map (fun r => r.index)).Nodup) : sortResults l1 = sortResults l2 := by
  refine sorted_nodup_eq _ _ ?_ (sortResults_pairwise l1) (sortResults_pairwise l2) ?_
  · exact (sortResults_perm l1).trans (hp.trans (sortResults_perm l2).symm)
  · exact (((sortResults_perm l1).map (fun r => r.index)).nodup_iff).mpr hnd

theorem sortResults_eq_self (l : List TaskResult)
    (hs : l.Pairwise (fun a b => a.index ≤ b.index))
    (hnd : (l.map (fun r => r.index)).Nodup) : sortResults l = l :=
  sorted_nodup_eq _ _ (sortResults_perm l) (sortResults_pairwise l) hs
    ((((sortResults_perm l).map (fun r => r.index)).nodup_iff).mpr hnd)

/-! ### Lemmas about the recombination loop (lines 101-123) -/

theorem copyUuids_ok (src : Store) (c : Bool) :
    ∀ (us : List String) (d : Store),
      (∀ u ∈ us, (src.find? (fun o => o.uuid == u)).isSome) →
      copyUuids d src us c =
        Except.ok ((us.filterMap (fun u => src.find? (fun o => o.uuid == u))).foldl (impStep c) d)
  | [], d, _ => rfl
  | u :: rest, d, h => by
    obtain ⟨o, ho⟩ := Option.isSome_iff_exists.mp (h u (List.mem_cons_self u rest))
    have hrest := copyUuids_ok src c rest (impStep c d o)
      (fun x hx => h x (List.mem_cons_of_mem u hx))
    simp [copyUuids, copy_uuid_from_other_model, ho, List.filterMap_cons, hrest]

theorem mergeLoop_ok (stores : StoreMap) (c : Bool) :
    ∀ (rs : List TaskResult) (d : Store),
      (∀ r ∈ rs, mergeOkB stores r = true) →
      mergeLoop stores c rs d = Except.ok ((importsAll stores rs).foldl (impStep c) d)
  | [], d, _ => rfl
  | r :: rest, d, h => by
    have hr : mergeOkB stores r = true := h r (List.mem_cons_self r rest)
    have hrest := fun d1 => mergeLoop_ok stores c rest d1
      (fun x hx => h x (List.mem_cons_of_mem r hx))
    cases hepc : r.epc with
    | none =>
      simp only [mergeLoop, hepc, importsAll, ImportsOf, List.nil_append]
      exact hrest d
    | some p =>
      cases hopen : openStore stores p with
      | none => simp [mergeOkB, hepc, hopen] at hr
      | some src =>
        have hall : ∀ u ∈ uuidsOf r src, (src.find? (fun o => o.uuid == u)).isSome := by
          simp only [mergeOkB, hepc, hopen, List.all_eq_true] at hr
          exact fun u hu => hr u hu
        simp only [mergeLoop, hepc, hopen, copyUuids_ok src c (uuidsOf r src) d hall,
          importsAll, ImportsOf, List.foldl_append]
        exact hrest _

theorem mem_impStep (c : Bool) (d : Store) (x o : Obj) (h : o ∈ impStep c d x) :
    o ∈ d ∨ o = x := by
  unfold impStep at h
  split at h
  · exact Or.inl h
  · rcases List.mem_append.mp h with h1 | h2
    · exact Or.inl h1
    · exact Or.inr (List.mem_singleton.mp h2)

theorem subset_impStep (c : Bool) (d : Store) (x o : Obj) (h : o ∈ d) :
    o ∈ impStep c d x := by
  unfold impStep
  split
  · exact h
  · exact List.mem_append.mpr (Or.inl h)

theorem foldl_step_mem :
    ∀ (seq : List Obj) (d : Store) (o : Obj), o ∈ seq.foldl (impStep true) d →
      o ∈ d ∨ o ∈ seq
  | [], _, _, h => Or.inl h
  | x :: xs, d, o, h => by
    rcases foldl_step_mem xs (impStep true d x) o h with h1 | h2
    · rcases mem_impStep true d x o h1 with h3 | h4
      · exact Or.inl h3
      · exact Or.inr (h4 ▸ List.mem_cons_self x xs)
    · exact Or.inr (List.mem_cons_of_mem x h2)

theorem foldl_step_fresh :
    ∀ (seq : List Obj) (d : Store) (o : Obj), o ∈ seq.foldl (impStep true) d →
      o ∉ d → ∀ q ∈ d, q.content ≠ o.content
  | [], d, o, h, hno, _, _ => absurd h hno
  | x :: xs, d, o, h, hno, q, hq => by
    by_cases hd1 : o ∈ impStep true d x
    · -- `o` entered at this step (or was already in `d`, excluded): `o = x` and
      -- the guard found no equivalent object in `d`.
      rcases mem_impStep true d x o hd1 with h1 | h2
      · exact absurd h1 hno
      · subst h2
        have hguard : ¬ (true && d.any fun q1 => q1.content == o.content) = true := by
          intro hcon
          have : impStep true d o = d := by unfold impStep; rw [if_pos hcon]
          rw [this] at hd1
          exact hno hd1
        have : ∀ q1 ∈ d, ¬ (q1.content == o.content) = true := by
          intro q1 hq1 hcq
          apply hguard
          simp only [Bool.true_and, List.any_eq_true]
          exact ⟨q1, hq1, hcq⟩
        exact fun hc => this q hq (beq_iff_eq.mpr hc)
    · exact foldl_step_fresh xs (impStep true d x) o h hd1 q (subset_impStep true d x q hq)

theorem foldl_step_min :
    ∀ (seq : List Obj) (d : Store),
      seq.Pairwise (fun a b => a.origin ≤ b.origin) →
      (∀ o ∈ d, ∀ q ∈ seq, q.content = o.content → o.origin ≤ q.origin) →
      ∀ o ∈ seq.foldl (impStep true) d, ∀ q ∈ seq, q.content = o.content →
        o.origin ≤ q.origin
  | [], _, _, _, _, _, _, hq, _ => absurd hq (List.not_mem_nil _)
  | x :: xs, d, hp, hdom, o, ho, q, hq, hc => by
    have hp1 := List.pairwise_cons.mp hp
    have hdom1 : ∀ o1 ∈ impStep true d x, ∀ q1 ∈ xs, q1.content = o1.content →
        o1.origin ≤ q1.origin := by
      intro o1 ho1 q1 hq1 hc1
      rcases mem_impStep true d x o1 ho1 with h1 | h2
      · exact hdom o1 h1 q1 (List.mem_cons_of_mem x hq1) hc1
      · exact h2 ▸ hp1.1 q1 hq1
    rcases List.mem_cons.mp hq with hqx | hqxs
    · -- `q` is the head: `o` must be in `d` or be the head itself, since later
      -- elements with the head's content are never added past the head.
      subst hqx
      by_cases hd1 : o ∈ impStep true d q
      · rcases mem_impStep true d q o hd1 with h1 | h2
        · exact hdom o h1 q (List.mem_cons_self q xs) hc
        · exact h2 ▸ Nat.le_refl _
      · exfalso
        have hfresh := foldl_step_fresh xs (impStep true d q) o ho hd1
        have hqin : q ∈ impStep true d q := by
          unfold impStep
          split
          · next hcond =>
            exfalso
            simp only [Bool.true_and, List.any_eq_true] at hcond
            obtain ⟨q1, hq1, hcq⟩ := hcond
            exact hfresh q1 (subset_impStep true d q q1 hq1) ((beq_iff_eq.mp hcq).trans hc)
          · exact List.mem_append.mpr (Or.inr (List.mem_singleton.mpr rfl))
        exact hfresh q hqin hc
    · exact foldl_step_min xs (impStep true d x) hp1.2 hdom1 o ho q hqxs hc

theorem importsAll_mem (stores : StoreMap) :
    ∀ (rs : List TaskResult) (o : Obj), o ∈ importsAll stores rs →
      ∃ r, r ∈ rs ∧ o ∈ ImportsOf stores r
  | [], _, h => absurd h (List.not_mem_nil _)
  | r :: rest, o, h => by
    rcases List.mem_append.mp h with h1 | h2
    · exact ⟨r, List.mem_cons_self r rest, h1⟩
    · obtain ⟨r1, hr1, ho1⟩ := importsAll_mem stores rest o h2
      exact ⟨r1, List.mem_cons_of_mem r hr1, ho1⟩

theorem importsAll_mem_of (stores : StoreMap) :
    ∀ (rs : List TaskResult) (r : TaskResult) (o : Obj), r ∈ rs →
      o ∈ ImportsOf stores r → o ∈ importsAll stores rs
  | [], _, _, hr, _ => absurd hr (List.not_mem_nil _)
  | r1 :: rest, r, o, hr, ho => by
    rcases List.mem_cons.mp hr with h1 | h2
    · exact List.mem_append.mpr (Or.inl (h1 ▸ ho))
    · exact List.mem_append.mpr (Or.inr (importsAll_mem_of stores rest r o h2 ho))

theorem importsAll_pairwise (stores : StoreMap) :
    ∀ (rs : List TaskResult),
      rs.Pairwise (fun a b => a.index ≤ b.index) →
      (∀ r ∈ rs, ∀ o ∈ ImportsOf stores r, o.origin = r.index) →
      (importsAll stores rs).Pairwise (fun a b => a.origin ≤ b.origin)
  | [], _, _ => List.Pairwise.nil
  | r :: rest, hp, htag => by
    have hp1 := List.pairwise_cons.mp hp
    rw [importsAll, List.pairwise_append]
    refine ⟨?_, ?_, ?_⟩
    · -- all objects of one task share its origin, so the block is constant
      refine List.pairwise_iff_forall_sublist.mpr ?_
      intro a b hab
      have hsub := hab.subset
      have ha := htag r (List.mem_cons_self r rest) a (hsub (List.mem_cons_self a [b]))
      have hb := htag r (List.mem_cons_self r rest) b
        (hsub (List.mem_cons_of_mem a (List.mem_singleton.mpr rfl)))
      rw [ha, hb]
    · exact importsAll_pairwise stores rest hp1.2
        (fun r1 h1 => htag r1 (List.mem_cons_of_mem r h1))
    · intro a ha b hb
      obtain ⟨r1, hr1, hb1⟩ := importsAll_mem stores rest b hb
      rw [htag r (List.mem_cons_self r rest) a ha, htag r1 (List.mem_cons_of_mem r hr1) b hb1]
      exact hp1.1 r1 hr1

/-! ### Lemmas about uuid resolution (lines 111-116) -/

theorem foldl_impStep_false :
    ∀ (l : List Obj) (d : Store), l.foldl (impStep false) d = d ++ l
  | [], d => by simp
  | o :: rest, d => by
    have hstep : impStep false d o = d ++ [o] := by simp [impStep]
    rw [List.foldl_cons, hstep, foldl_impStep_false rest (d ++ [o]), List.append_assoc]
    rfl

theorem find_self_of_nodup :
    ∀ (src : Store), (src.map (fun o => o.uuid)).Nodup →
      ∀ o ∈ src, src.find? (fun q => q.uuid == o.uuid) = some o
  | [], _, _, ho => absurd ho (List.not_mem_nil _)
  | q1 :: rest, hnd, o, ho => by
    have hnd1 : q1.uuid ∉ rest.map (fun o => o.uuid) ∧
        (rest.map (fun o => o.uuid)).Nodup := by
      rw [List.map_cons, List.nodup_cons] at hnd
      exact hnd
    rcases List.mem_cons.mp ho with h1 | h2
    · subst h1
      simp [List.find?]
    · have hne : ¬ (q1.uuid == o.uuid) = true := by
        intro hcon
        exact hnd1.1 ((beq_iff_eq.mp hcon) ▸ List.mem_map_of_mem (fun o => o.uuid) h2)
      simp only [List.find?, hne]
      exact find_self_of_nodup rest hnd1.2 o h2

theorem filterMap_self_of {α : Type} (g : α → Option α) :
    ∀ (l : List α), (∀ o ∈ l, g o = some o) → l.filterMap g = l
  | [], _ => rfl
  | o :: rest, h => by
    rw [List.filterMap_cons, h o (List.mem_cons_self o rest),
      filterMap_self_of g rest (fun x hx => h x (List.mem_cons_of_mem o hx))]

theorem map_uuid_filterMap (src : Store) :
    ∀ (l : List String),
      (∀ u ∈ l, ∀ o, src.find? (fun q => q.uuid == u) = some o → o.uuid = u) →
      (∀ u ∈ l, (src.find? (fun q => q.uuid == u)).isSome) →
      ((l.filterMap (fun u => src.find? (fun q => q.uuid == u))).map (fun o => o.uuid)) = l
  | [], _, _ => rfl
  | u :: rest, hu, hs => by
    obtain ⟨o, ho⟩ := Option.isSome_iff_exists.mp (hs u (List.mem_cons_self u rest))
    rw [List.filterMap_cons, ho, List.map_cons, hu u (List.mem_cons_self u rest) o ho,
      map_uuid_filterMap src rest (fun x hx => hu x (List.mem_cons_of_mem u hx))
        (fun x hx => hs x (List.mem_cons_of_mem u hx))]

theorem find_uuid_eq (src : Store) (u : String) (o : Obj)
    (h : src.find? (fun q => q.uuid == u) = some o) : o.uuid = u := by
  have hp := @List.find?_some Obj (fun q => q.uuid == u) o src h
  exact beq_iff_eq.mp hp

/-! ### Lemmas about the cleanup loop (lines 120-121) -/

theorem count_foldl_erase_le :
    ∀ (tmps fs : List String) (d : String),
      ((tmps.foldl (fun f x => f.erase x) fs).count d) ≤ fs.count d
  | [], _, _ => Nat.le_refl _
  | t :: rest, fs, d => by
    refine Nat.le_trans (count_foldl_erase_le rest (fs.erase t) d) ?_
    exact (List.erase_sublist t fs).count_le d

theorem foldl_erase_count_zero :
    ∀ (tmps fs : List String) (d : String), d ∈ tmps → tmps.Nodup →
      fs.count d = 1 → (tmps.foldl (fun f x => f.erase x) fs).count d = 0
  | [], _, _, hd, _, _ => absurd hd (List.not_mem_nil _)
  | t :: rest, fs, d, hd, hnd, hc => by
    have hnd1 := List.nodup_cons.mp hnd
    rcases List.mem_cons.mp hd with h1 | h2
    · subst h1
      have hzero : (fs.erase d).count d = 0 := by
        rw [List.count_erase_self, hc]
      have := count_foldl_erase_le rest (fs.erase d) d
      rw [hzero] at this
      exact Nat.le_zero.mp (by simpa using this)
    · have hne : d ≠ t := fun hcon => hnd1.1 (hcon ▸ h2)
      have hceq : (fs.erase t).count d = 1 := by
        rw [List.count_erase_of_ne hne, hc]
      exact foldl_erase_count_zero rest (fs.erase t) d h2 hnd1.2 hceq

/-! ### Lemmas about `rm_tree` (lines 13-28) -/

mutual

theorem rm_tree_ok : ∀ (e : Entry), entryUnlocked e = true → rm_tree e = Except.ok ()
  | Entry.file n locked, h => by
    have hl : locked = false := by simpa [entryUnlocked] using h
    simp [rm_tree, hl]
  | Entry.dir n locked cs, h => by
    have h1 : locked = false ∧ childrenUnlocked cs = true := by
      constructor
      · simp only [entryUnlocked, Bool.and_eq_true, Bool.not_eq_true'] at h
        exact h.1
      · simp only [entryUnlocked, Bool.and_eq_true] at h
        exact h.2
    simp [rm_tree, rmChildren_ok cs h1.2, h1.1]

theorem rmChildren_ok : ∀ (cs : List Entry), childrenUnlocked cs = true →
    rmChildren cs = Except.ok ()
  | [], _ => rfl
  | c :: rest, h => by
    have h1 : entryUnlocked c = true ∧ childrenUnlocked rest = true := by
      simpa only [childrenUnlocked, Bool.and_eq_true] using h
    simp [rmChildren, rm_tree_ok c h1.1, rmChildren_ok rest h1.2]

end

mutual

theorem entryUnlocked_of_rm_tree_ok : ∀ (e : Entry), rm_tree e = Except.ok () →
    entryUnlocked e = true
  | Entry.file n locked, h => by
    cases locked with
    | false => rfl
    | true => simp [rm_tree] at h
  | Entry.dir n locked cs, h => by
    cases hch : rmChildren cs with
    | error pr =>
      obtain ⟨m1, rem⟩ := pr
      simp [rm_tree, hch] at h
    | ok u =>
      cases u
      cases locked with
      | false =>
        simp only [entryUnlocked, Bool.not_false, Bool.true_and]
        exact childrenUnlocked_of_rmChildren_ok cs hch
      | true => simp [rm_tree, hch] at h

theorem childrenUnlocked_of_rmChildren_ok : ∀ (cs : List Entry),
    rmChildren cs = Except.ok () → childrenUnlocked cs = true
  | [], _ => rfl
  | c :: rest, h => by
    cases hc : rm_tree c with
    | error pr =>
      obtain ⟨m1, rem⟩ := pr
      simp [rmChildren, hc] at h
    | ok u =>
      cases u
      cases hr : rmChildren rest with
      | error pr =>
        obtain ⟨m1, rem⟩ := pr
        simp [rmChildren, hc, hr] at h
      | ok v =>
        cases v
        simp only [childrenUnlocked, Bool.and_eq_true]
        exact ⟨entryUnlocked_of_rm_tree_ok c hc, childrenUnlocked_of_rmChildren_ok rest hr⟩

end

/-! ### Characterizations of whole runs -/

theorem run_ok_parts (kwargs_list : List KwArgs) (alloc : Nat → String)
    (stores : StoreMap) (dest0 : Store) (c : Bool) (fs0 : List String)
    (results : List TaskResult)
    (hok : ∀ r ∈ sortResults results, mergeOkB stores r = true) :
    function_multiprocessing kwargs_list alloc (results.map Except.ok) stores dest0 c fs0
      = ⟨injectTmp alloc 0 kwargs_list,
         Except.ok ((sortResults results).map (fun r => r.success),
           (importsAll stores (sortResults results)).foldl (impStep c) dest0),
         ((List.range kwargs_list.length).map alloc).foldl (fun f d => f.erase d)
           (fs0 ++ (List.range kwargs_list.length).map alloc)⟩ := by
  unfold function_multiprocessing
  simp only [collectResults_map_ok, mergeLoop_ok stores c (sortResults results) dest0 hok]

theorem kwargsFinal_eq (kwargs_list : List KwArgs) (alloc : Nat → String)
    (outcomes : List (Except String TaskResult)) (stores : StoreMap) (dest0 : Store)
    (c : Bool) (fs0 : List String) :
    (function_multiprocessing kwargs_list alloc outcomes stores dest0 c fs0).kwargsFinal
      = injectTmp alloc 0 kwargs_list := by
  unfold function_multiprocessing
  dsimp only
  split
  · rfl
  · split
    · rfl
    · rfl

theorem mergeLoop_skip (stores : StoreMap) (c : Bool) :
    ∀ (rs1 rs2 : List TaskResult) (r : TaskResult) (d : Store), r.epc = none →
      mergeLoop stores c (rs1 ++ r :: rs2) d = mergeLoop stores c (rs1 ++ rs2) d
  | [], rs2, r, d, h => by simp [mergeLoop, h]
  | x :: xs, rs2, r, d, h => by
    cases h1 : x.epc with
    | none =>
      simp only [List.cons_append, mergeLoop, h1]
      exact mergeLoop_skip stores c xs rs2 r d h
    | some p =>
      cases h2 : openStore stores p with
      | none => simp only [List.cons_append, mergeLoop, h1, h2]
      | some src =>
        cases h3 : copyUuids d src (uuidsOf x src) c with
        | error e => simp only [List.cons_append, mergeLoop, h1, h2, h3]
        | ok d1 =>
          simp only [List.cons_append, mergeLoop, h1, h2, h3]
          exact mergeLoop_skip stores c xs rs2 r d1 h

theorem importsAll_nil_of (stores : StoreMap) :
    ∀ (rs : List TaskResult), (∀ r ∈ rs, r.epc = none) → importsAll stores rs = []
  | [], _ => rfl
  | r :: rest, h => by
    rw [importsAll, ImportsOf, h r (List.mem_cons_self r rest),
      importsAll_nil_of stores rest (fun x hx => h x (List.mem_cons_of_mem r hx))]
    rfl

theorem copyUuids_ok_find (src : Store) (c : Bool) :
    ∀ (us : List String) (d d1 : Store), copyUuids d src us c = Except.ok d1 →
      ∀ u ∈ us, (src.find? (fun o => o.uuid == u)).isSome
  | [], _, _, _, _, hu => absurd hu (List.not_mem_nil _)
  | u0 :: rest, d, d1, h, u, hu => by
    rw [copyUuids] at h
    cases hf : src.find? (fun o => o.uuid == u0) with
    | none =>
      rw [copy_uuid_from_other_model, hf] at h
      exact Except.noConfusion h
    | some o =>
      rw [copy_uuid_from_other_model, hf] at h
      rcases List.mem_cons.mp hu with h1 | h2
      · rw [h1, hf]; rfl
      · exact copyUuids_ok_find src c rest (impStep c d o) d1 h u h2

theorem mergeLoop_error (stores : StoreMap) (c : Bool) :
    ∀ (rs : List TaskResult) (d : Store) (r : TaskResult), r ∈ rs →
      mergeOkB stores r = false → ∃ e, mergeLoop stores c rs d = Except.error e
  | [], _, _, hr, _ => absurd hr (List.not_mem_nil _)
  | r1 :: rest, d, r, hr, hbad => by
    cases h1 : r1.epc with
    | none =>
      rcases List.mem_cons.mp hr with h2 | h2
      · rw [h2] at hbad
        simp [mergeOkB, h1] at hbad
      · obtain ⟨e, he⟩ := mergeLoop_error stores c rest d r h2 hbad
        refine ⟨e, ?_⟩
        simp only [mergeLoop, h1]
        exact he
    | some p =>
      cases h2 : openStore stores p with
      | none =>
        refine ⟨"cannot open epc: " ++ p, ?_⟩
        simp only [mergeLoop, h1, h2]
      | some src =>
        cases h3 : copyUuids d src (uuidsOf r1 src) c with
        | error e =>
          refine ⟨e, ?_⟩
          simp only [mergeLoop, h1, h2, h3]
        | ok d1 =>
          rcases List.mem_cons.mp hr with h4 | h4
          · exfalso
            rw [h4] at hbad
            simp only [mergeOkB, h1, h2] at hbad
            have hall : (uuidsOf r1 src).all
                (fun u => (src.find? (fun o => o.uuid == u)).isSome) = true :=
              List.all_eq_true.mpr (copyUuids_ok_find src c (uuidsOf r1 src) d d1 h3)
            rw [hall] at hbad
            exact Bool.noConfusion hbad
          · obtain ⟨e, he⟩ := mergeLoop_error stores c rest d1 r h4 hbad
            refine ⟨e, ?_⟩
            simp only [mergeLoop, h1, h2, h3]
            exact he

/-! ### Claim theorems -/

/-- Claim C10: `function_multiprocessing` mutates the caller-supplied
keyword-argument dictionaries in place (lines 69-73): the dictionary at
position `i` of `kwargs_list` gains a `"tmp_dir"` key holding the scratch path
allocated for task `i` and an `"index"` key holding `i`; `kwargsFinal` is the
post-call state of the caller's dicts on every exit path, so these entries
remain visible to the caller after the call returns. -/
theorem c10_kwargs_mutated_in_place (kwargs_list : List KwArgs) (alloc : Nat → String)
    (outcomes : List (Except String TaskResult)) (stores : StoreMap) (dest0 : Store)
    (consolidate : Bool) (fs0 : List String) (i : Nat) (hi : i < kwargs_list.length) :
    ∃ d0, kwargs_list[i]? = some d0 ∧
      (function_multiprocessing kwargs_list alloc outcomes stores dest0 consolidate
          fs0).kwargsFinal[i]? =
        some (dictSet (dictSet d0 "tmp_dir" (Val.str (alloc i))) "index" (Val.nat i)) ∧
      dictGet (dictSet (dictSet d0 "tmp_dir" (Val.str (alloc i))) "index" (Val.nat i))
          "tmp_dir" = some (Val.str (alloc i)) ∧
      dictGet (dictSet (dictSet d0 "tmp_dir" (Val.str (alloc i))) "index" (Val.nat i))
          "index" = some (Val.nat i) := by
  have hi0 : kwargs_list[i]? = some kwargs_list[i] := List.getElem?_eq_getElem hi
  refine ⟨kwargs_list[i], hi0, ?_, ?_, ?_⟩
  · rw [kwargsFinal_eq, injectTmp_getElem alloc kwargs_list 0 i, hi0]
    simp
  · rw [dictGet_dictSet_ne _ "index" "tmp_dir" _ (by decide), dictGet_dictSet_self]
  · exact dictGet_dictSet_self _ _ _

/-- Concrete witness for C10: a batch of one dictionary. -/
theorem c10_witness :
    (0 < ([[("a", Val.nat 7)]] : List KwArgs).length) ∧
    (∃ d0, ([[("a", Val.nat 7)]] : List KwArgs)[0]? = some d0 ∧
      (function_multiprocessing [[("a", Val.nat 7)]] (fun _ => "t") [] [] [] true
          []).kwargsFinal[0]? =
        some (dictSet (dictSet d0 "tmp_dir" (Val.str "t")) "index" (Val.nat 0)) ∧
      dictGet (dictSet (dictSet d0 "tmp_dir" (Val.str "t")) "index" (Val.nat 0)) "tmp_dir" =
        some (Val.str "t") ∧
      dictGet (dictSet (dictSet d0 "tmp_dir" (Val.str "t")) "index" (Val.nat 0)) "index" =
        some (Val.nat 0)) :=
  ⟨by decide,
    c10_kwargs_mutated_in_place [[("a", Val.nat 7)]] (fun _ => "t") [] [] [] true [] 0
      (by decide)⟩

/-- Claim C2 as stated is false: a result with `success = false` but a non-None
artifact locator is still merged — the source (lines 108-110) skips only on
`epc is None` and never consults `success`.  At this input the single task
reports failure yet its object is imported into the fresh destination, where
the claim requires no merge action and an empty destination. -/
theorem c2_counterexample :
    (function_multiprocessing [[]] (fun _ => "t")
        [Except.ok ⟨0, false, some "p", some ["u"]⟩]
        [("p", [⟨"u", 5, 0⟩])] [] true []).outcome
      = Except.ok ([false], [⟨"u", 5, 0⟩]) ∧
    (function_multiprocessing [[]] (fun _ => "t")
        [Except.ok ⟨0, false, some "p", some ["u"]⟩]
        [("p", [⟨"u", 5, 0⟩])] [] true []).outcome
      ≠ Except.ok ([false], []) :=
  ⟨rfl, by decide⟩

/-- Claim C2 amended: a collected result is skipped by the merge loop iff its
artifact locator is `None`; the `success` field is not consulted (a
`success=false` result with a locator is merged — see the counterexample).  A
skipped result takes no merge action wherever it sits in the processing order,
and its success flag still occupies its slot: the success vector is computed
from the sorted results independently of merging. -/
theorem c2_amended_skip_iff_locator_none (stores : StoreMap) (consolidate : Bool)
    (d : Store) (rs1 rs2 : List TaskResult) (r : TaskResult) (h : r.epc = none) :
    mergeLoop stores consolidate (rs1 ++ r :: rs2) d
      = mergeLoop stores consolidate (rs1 ++ rs2) d ∧
    r.success ∈ (sortResults (rs1 ++ r :: rs2)).map (fun x => x.success) := by
  refine ⟨mergeLoop_skip stores consolidate rs1 rs2 r d h, ?_⟩
  have hr : r ∈ rs1 ++ r :: rs2 := List.mem_append.mpr (Or.inr (List.mem_cons_self r rs2))
  exact List.mem_map_of_mem _ ((sortResults_perm _).mem_iff.mpr hr)

/-- Concrete witness for the amended C2. -/
theorem c2_witness :
    ((⟨0, false, none, none⟩ : TaskResult).epc = none) ∧
    (mergeLoop [] true ([] ++ (⟨0, false, none, none⟩ : TaskResult) :: []) []
        = mergeLoop [] true ([] ++ []) [] ∧
      (⟨0, false, none, none⟩ : TaskResult).success ∈
        (sortResults ([] ++ (⟨0, false, none, none⟩ : TaskResult) :: [])).map
          (fun x => x.success)) :=
  ⟨rfl, c2_amended_skip_iff_locator_none [] true [] [] [] ⟨0, false, none, none⟩ rfl⟩

/-- Claim C3 names the spec-mandated behavior (its §4.4 and §9 explicitly call
the reference implementation's behavior a violation to fix) and the code does
the opposite: at this input task 1's handle resolves with an uncaught
exception, and the source re-raises it from `call.result()` (line 89), so the
whole batch aborts with the exception instead of recording `success=False` for
that slot and continuing to merge the other task. -/
theorem c3_exception_aborts_batch :
    (function_multiprocessing [[], []] (fun _ => "t")
        [Except.ok ⟨0, true, none, none⟩, Except.error "boom"] [] [] true []).outcome
      = Except.error "boom" := rfl

/-- Claim C5 is false: the source performs no index validation at all — line 94
sorts the collected results by their reported index and the merge proceeds.
At this input the two collected results both carry index `0` (so the indices
are neither unique nor equal to the set of assigned indices), yet the call
completes normally with a success vector instead of failing fast with a
malformed-batch error. -/
theorem c5_counterexample :
    (function_multiprocessing [[], []] (fun _ => "t")
        [Except.ok ⟨0, true, none, none⟩, Except.ok ⟨0, false, none, none⟩]
        [] [] true []).outcome
      = Except.ok ([true, false], []) := rfl

/-- Claim C5 amended: `function_multiprocessing` performs no index validation:
whatever indices the collected results carry — duplicated, missing or
out-of-range — they are stably sorted by reported index and processed as-is,
and the call never reports a malformed-batch error (here shown completing
normally for arbitrary indices, with results whose merge takes no action). -/
theorem c5_amended_no_index_validation (kwargs_list : List KwArgs) (alloc : Nat → String)
    (stores : StoreMap) (dest0 : Store) (consolidate : Bool) (fs0 : List String)
    (results : List TaskResult) (h : ∀ r ∈ results, r.epc = none) :
    (function_multiprocessing kwargs_list alloc (results.map Except.ok) stores dest0
        consolidate fs0).outcome
      = Except.ok ((sortResults results).map (fun r => r.success), dest0) := by
  have hs : ∀ r ∈ sortResults results, r.epc = none :=
    fun r hr => h r ((sortResults_perm results).mem_iff.mp hr)
  have hok : ∀ r ∈ sortResults results, mergeOkB stores r = true := by
    intro r hr
    simp only [mergeOkB, hs r hr]
  rw [run_ok_parts kwargs_list alloc stores dest0 consolidate fs0 results hok]
  rw [importsAll_nil_of stores (sortResults results) hs]
  rfl

/-- Concrete witness for the amended C5, at results with duplicated indices. -/
theorem c5_witness :
    (∀ r ∈ ([⟨0, true, none, none⟩, ⟨0, false, none, none⟩] : List TaskResult),
      r.epc = none) ∧
    (function_multiprocessing [[], []] (fun _ => "t")
        (([⟨0, true, none, none⟩, ⟨0, false, none, none⟩] : List TaskResult).map Except.ok)
        [] [] true []).outcome
      = Except.ok ((sortResults [⟨0, true, none, none⟩, ⟨0, false, none, none⟩]).map
          (fun r => r.success), []) :=
  ⟨by decide,
    c5_amended_no_index_validation [[], []] (fun _ => "t") [] [] true []
      [⟨0, true, none, none⟩, ⟨0, false, none, none⟩] (by decide)⟩

/-- Claim C8's best-effort half is false on the code: at this directory the
first child cannot be unlinked; `rm_tree` (lines 23-27) has no handler, so the
exception propagates immediately — the deletable sibling `"b"` is never
attempted and remains in place, and only the first failure is reported, where
the claim requires deletion of the siblings and a report of every failed
entry. -/
theorem c8_counterexample :
    rm_tree (Entry.dir "d" false [Entry.file "a" true, Entry.file "b" false])
      = Except.error ("unlink a", Entry.dir "d" false
          [Entry.file "a" true, Entry.file "b" false]) := rfl

/-- Claim C8 amended: deletion does proceed recursively — file children are
unlinked directly, directory children are recursed into and the emptied
directory is then removed — and a directory's deletion succeeds precisely when
every entry below it is deletable (then no entry is left behind); but a
failure to delete one entry is not tolerated: the first failure raises
immediately, sibling entries after it are not attempted and are left in
place, and only that first failure is reported. -/
theorem c8_amended_recursive_but_first_failure_aborts (n : String) (cs : List Entry)
    (e e1 : Entry) (es : List Entry) (m : String)
    (herr : rm_tree e = Except.error (m, e1)) :
    (rm_tree (Entry.dir n false cs) = Except.ok () ↔ childrenUnlocked cs = true) ∧
    rmChildren (e :: es) = Except.error (m, e1 :: es) := by
  constructor
  · constructor
    · intro h
      have h1 := entryUnlocked_of_rm_tree_ok (Entry.dir n false cs) h
      simp only [entryUnlocked, Bool.not_false, Bool.true_and] at h1
      exact h1
    · intro h
      exact rm_tree_ok (Entry.dir n false cs) (by simp [entryUnlocked, h])
  · simp only [rmChildren, herr]

/-- Concrete witness for the amended C8. -/
theorem c8_witness :
    (rm_tree (Entry.file "y" true) = Except.error ("unlink y", Entry.file "y" true)) ∧
    ((rm_tree (Entry.dir "d" false [Entry.file "x" false]) = Except.ok ()
        ↔ childrenUnlocked [Entry.file "x" false] = true) ∧
      rmChildren [Entry.file "y" true, Entry.file "z" false]
        = Except.error ("unlink y", Entry.file "y" true :: [Entry.file "z" false])) :=
  ⟨rfl,
    c8_amended_recursive_but_first_failure_aborts "d" [Entry.file "x" false]
      (Entry.file "y" true) (Entry.file "y" true) [Entry.file "z" false] "unlink y" rfl⟩

/-- Claim C4 is false on exception exit paths: at this input the single task
succeeded but the store its locator points to cannot be opened, so the merge
raises; the cleanup loop (lines 120-121) sits after the merge loop with no
`finally`, so it is never reached, and the allocated scratch directory `"t0"`
is still present when the call exits — where the claim requires deletion on
every exit path. -/
theorem c4_counterexample :
    (function_multiprocessing [[]] (fun _ => "t0")
        [Except.ok ⟨0, true, some "p", none⟩] [] [] true []).outcome
      = Except.error ("cannot open epc: p") ∧
    (function_multiprocessing [[]] (fun _ => "t0")
        [Except.ok ⟨0, true, some "p", none⟩] [] [] true []).fsFinal = ["t0"] ∧
    "t0" ∈ (function_multiprocessing [[]] (fun _ => "t0")
        [Except.ok ⟨0, true, some "p", none⟩] [] [] true []).fsFinal :=
  ⟨rfl, rfl, by decide⟩

/-- Claim C4 amended: on the normal exit path — collection raised no exception
and every result's merge succeeded — every one of the N allocated scratch
directories is deleted by the time the call returns, including those of tasks
that reported `success=false`; when collection or merging raises, the cleanup
loop is never reached and the scratch directories remain (see the
counterexample).  Freshness of `mkdtemp`'s names is the injectivity and
disjointness hypotheses on `alloc`. -/
theorem c4_amended_cleanup_on_normal_return (kwargs_list : List KwArgs)
    (alloc : Nat → String) (stores : StoreMap) (dest0 : Store) (consolidate : Bool)
    (fs0 : List String) (results : List TaskResult)
    (hinj : ∀ i, i < kwargs_list.length → ∀ j, j < kwargs_list.length →
      alloc i = alloc j → i = j)
    (hfresh : ∀ i, i < kwargs_list.length → alloc i ∉ fs0)
    (hok : ∀ r ∈ results, mergeOkB stores r = true) :
    ∀ i, i < kwargs_list.length → alloc i ∉
      (function_multiprocessing kwargs_list alloc (results.map Except.ok) stores dest0
        consolidate fs0).fsFinal := by
  intro i hi
  have hoks : ∀ r ∈ sortResults results, mergeOkB stores r = true :=
    fun r hr => hok r ((sortResults_perm results).mem_iff.mp hr)
  rw [run_ok_parts kwargs_list alloc stores dest0 consolidate fs0 results hoks]
  intro hmem
  have hndt : ((List.range kwargs_list.length).map alloc).Nodup := by
    refine List.Nodup.map_on ?_ (List.nodup_range _)
    intro x hx y hy hxy
    exact hinj x (List.mem_range.mp hx) y (List.mem_range.mp hy) hxy
  have hmem1 : alloc i ∈ (List.range kwargs_list.length).map alloc :=
    List.mem_map_of_mem alloc (List.mem_range.mpr hi)
  have hcount1 : (fs0 ++ (List.range kwargs_list.length).map alloc).count (alloc i) = 1 := by
    rw [List.count_append]
    have h0 : fs0.count (alloc i) = 0 := List.count_eq_zero.mpr (hfresh i hi)
    have hle : ((List.range kwargs_list.length).map alloc).count (alloc i) ≤ 1 :=
      List.nodup_iff_count_le_one.mp hndt (alloc i)
    have hge : 0 < ((List.range kwargs_list.length).map alloc).count (alloc i) :=
      List.count_pos_iff.mpr hmem1
    omega
  have hz := foldl_erase_count_zero ((List.range kwargs_list.length).map alloc)
    (fs0 ++ (List.range kwargs_list.length).map alloc) (alloc i) hmem1 hndt hcount1
  rw [List.count_eq_zero] at hz
  exact hz hmem

/-- Concrete witness for the amended C4: the single task reported failure and
its scratch directory is still deleted on the normal exit path. -/
theorem c4_witness :
    (∀ r ∈ ([⟨0, false, none, none⟩] : List TaskResult), mergeOkB [] r = true) ∧
    (∀ i, i < ([[]] : List KwArgs).length → "t" ∉
      (function_multiprocessing [[]] (fun _ => "t")
        (([⟨0, false, none, none⟩] : List TaskResult).map Except.ok) [] [] true
          []).fsFinal) :=
  ⟨by decide,
    c4_amended_cleanup_on_normal_return [[]] (fun _ => "t") [] [] true []
      [⟨0, false, none, none⟩]
      (fun i hi j hj _ => by simp at hi hj; omega)
      (fun i _ hmem => by simp at hmem)
      (by decide)⟩

/-- Claim C9 (uuid resolution from source lines 111-116; store access modelled
from the spec since `resqpy.model` is not under `src/`): for a merged task
result, the set of objects imported from its store into the destination is
exactly the identifiers listed in `uuids` when that field is non-None, and
exactly all objects present in the task's store when it is `None`.  Stated
with `consolidate = false`, where each import appends verbatim, so the
imported set is visible as the suffix added to the destination. -/
theorem c9_imported_set (stores : StoreMap) (r : TaskResult) (d : Store) (p : String)
    (src : Store) (hepc : r.epc = some p) (hopen : openStore stores p = some src)
    (hnd : (src.map (fun o => o.uuid)).Nodup) :
    (r.uuids = none → mergeLoop stores false [r] d = Except.ok (d ++ src)) ∧
    (∀ l, r.uuids = some l → (∀ u ∈ l, (src.find? (fun q => q.uuid == u)).isSome) →
      ∃ os, mergeLoop stores false [r] d = Except.ok (d ++ os) ∧
        os.map (fun o => o.uuid) = l) := by
  constructor
  · intro hu
    have huu : uuidsOf r src = src.map (fun o => o.uuid) := by simp only [uuidsOf, hu]
    have hall : ∀ u ∈ src.map (fun o => o.uuid),
        (src.find? (fun q => q.uuid == u)).isSome := by
      intro u humem
      obtain ⟨o, ho, rfl⟩ := List.mem_map.mp humem
      rw [find_self_of_nodup src hnd o ho]
      rfl
    have hcu := copyUuids_ok src false (uuidsOf r src) d (by rw [huu]; exact hall)
    simp only [mergeLoop, hepc, hopen, hcu]
    rw [huu]
    have hres : (src.map (fun o => o.uuid)).filterMap
        (fun u => src.find? (fun q => q.uuid == u)) = src := by
      rw [List.filterMap_map]
      exact filterMap_self_of _ src (fun o ho => find_self_of_nodup src hnd o ho)
    rw [hres, foldl_impStep_false]
  · intro l hu hall
    have huu : uuidsOf r src = l := by simp only [uuidsOf, hu]
    have hcu := copyUuids_ok src false (uuidsOf r src) d (by rw [huu]; exact hall)
    refine ⟨l.filterMap (fun u => src.find? (fun q => q.uuid == u)), ?_, ?_⟩
    · simp only [mergeLoop, hepc, hopen, hcu]
      rw [huu, foldl_impStep_false]
    · exact map_uuid_filterMap src l
        (fun u _ o ho => find_uuid_eq src u o ho) hall

/-- Concrete witness for C9: a store with two objects, imported whole. -/
theorem c9_witness :
    ((⟨0, true, some "p", none⟩ : TaskResult).epc = some "p") ∧
    (openStore [("p", [⟨"u1", 1, 0⟩, ⟨"u2", 2, 0⟩])] "p"
      = some [⟨"u1", 1, 0⟩, ⟨"u2", 2, 0⟩]) ∧
    (([⟨"u1", 1, 0⟩, ⟨"u2", 2, 0⟩] : Store).map (fun o => o.uuid)).Nodup ∧
    (((⟨0, true, some "p", none⟩ : TaskResult).uuids = none →
      mergeLoop [("p", [⟨"u1", 1, 0⟩, ⟨"u2", 2, 0⟩])] false [⟨0, true, some "p", none⟩] []
        = Except.ok ([] ++ [⟨"u1", 1, 0⟩, ⟨"u2", 2, 0⟩])) ∧
     (∀ l, (⟨0, true, some "p", none⟩ : TaskResult).uuids = some l →
        (∀ u ∈ l, (([⟨"u1", 1, 0⟩, ⟨"u2", 2, 0⟩] : Store).find?
          (fun q => q.uuid == u)).isSome) →
        ∃ os, mergeLoop [("p", [⟨"u1", 1, 0⟩, ⟨"u2", 2, 0⟩])] false
            [⟨0, true, some "p", none⟩] [] = Except.ok ([] ++ os) ∧
          os.map (fun o => o.uuid) = l)) :=
  ⟨rfl, rfl, by decide, c9_imported_set _ _ _ _ _ rfl rfl (by decide)⟩

/-- Claim C6 is false: at this input task 0's store cannot be opened, and the
source (line 111) has no handler — the exception aborts the whole call, so no
success vector is returned at all and task 1's perfectly mergeable result is
never merged, where the claim requires `false` in slot 0 and a continuing
batch producing `[false, true]`. -/
theorem c6_counterexample :
    (function_multiprocessing [[], []] (fun _ => "t")
        [Except.ok ⟨0, true, some "p", none⟩, Except.ok ⟨1, true, some "q", some ["u"]⟩]
        [("q", [⟨"u", 3, 1⟩])] [] true []).outcome
      = Except.error "cannot open epc: p" ∧
    (function_multiprocessing [[], []] (fun _ => "t")
        [Except.ok ⟨0, true, some "p", none⟩, Except.ok ⟨1, true, some "q", some ["u"]⟩]
        [("q", [⟨"u", 3, 1⟩])] [] true []).outcome
      ≠ Except.ok ([false, true], [⟨"u", 3, 1⟩]) :=
  ⟨rfl, by decide⟩

/-- Claim C6 amended: when the store referenced by a merged result's locator
cannot be opened, or an identifier it lists is missing from that store (the
two cases of `mergeOkB` being false), the exception propagates out of the
merge loop and `function_multiprocessing` aborts with it: no success vector
is returned, the task's slot is not set to false, and the remaining tasks'
results are not merged. -/
theorem c6_amended_merge_failure_aborts (kwargs_list : List KwArgs) (alloc : Nat → String)
    (stores : StoreMap) (dest0 : Store) (consolidate : Bool) (fs0 : List String)
    (results : List TaskResult) (r : TaskResult) (hr : r ∈ results)
    (hbad : mergeOkB stores r = false) :
    ∃ e, (function_multiprocessing kwargs_list alloc (results.map Except.ok) stores dest0
        consolidate fs0).outcome = Except.error e := by
  have hrs : r ∈ sortResults results := (sortResults_perm results).mem_iff.mpr hr
  obtain ⟨e, he⟩ := mergeLoop_error stores consolidate (sortResults results) dest0 r hrs hbad
  refine ⟨e, ?_⟩
  unfold function_multiprocessing
  simp only [collectResults_map_ok, he]

/-- Concrete witness for the amended C6. -/
theorem c6_witness :
    ((⟨0, true, some "p", none⟩ : TaskResult) ∈
      ([⟨0, true, some "p", none⟩] : List TaskResult)) ∧
    (mergeOkB [] ⟨0, true, some "p", none⟩ = false) ∧
    (∃ e, (function_multiprocessing [[]] (fun _ => "t")
        (([⟨0, true, some "p", none⟩] : List TaskResult).map Except.ok) [] [] true
        []).outcome = Except.error e) :=
  ⟨by decide, rfl,
    c6_amended_merge_failure_aborts [[]] (fun _ => "t") [] [] true []
      [⟨0, true, some "p", none⟩] ⟨0, true, some "p", none⟩ (by decide) rfl⟩

/-- Claim C7: for every list of N ≥ 0 argument mappings and every completion
order of the tasks (`results` is an arbitrary permutation of the canonical
in-submission-order result list `canonical`, whose reported indices are
exactly 0..N-1 as assigned at dispatch), a run whose collection and merges
raise no exception returns a success vector of exactly N booleans whose i-th
element is the success flag reported by the task submitted with the i-th
input mapping. -/
theorem c7_returns_n_booleans_in_input_order (kwargs_list : List KwArgs)
    (alloc : Nat → String) (stores : StoreMap) (dest0 : Store) (consolidate : Bool)
    (fs0 : List String) (results canonical : List TaskResult)
    (hperm : results.Perm canonical)
    (hidx : canonical.map (fun r => r.index) = List.range kwargs_list.length)
    (hok : ∀ r ∈ results, mergeOkB stores r = true) :
    ∃ dest, (function_multiprocessing kwargs_list alloc (results.map Except.ok) stores dest0
        consolidate fs0).outcome = Except.ok (canonical.map (fun r => r.success), dest) ∧
      (canonical.map (fun r => r.success)).length = kwargs_list.length ∧
      (∀ i, i < kwargs_list.length → ∃ r, r ∈ results ∧ r.index = i ∧
        (canonical.map (fun r => r.success))[i]? = some r.success) := by
  have hndc : (canonical.map (fun r => r.index)).Nodup := by
    rw [hidx]
    exact List.nodup_range _
  have hpc : canonical.Pairwise (fun a b => a.index ≤ b.index) := by
    have h1 : (canonical.map (fun r => r.index)).Pairwise (fun a b => a < b) := by
      rw [hidx]
      exact List.pairwise_lt_range _
    exact (List.pairwise_map.mp h1).imp (fun hab => Nat.le_of_lt hab)
  have hndr : (results.map (fun r => r.index)).Nodup := ((hperm.map _).nodup_iff).mpr hndc
  have hsort : sortResults results = canonical := by
    rw [sortResults_congr results canonical hperm hndr]
    exact sortResults_eq_self canonical hpc hndc
  have hoks : ∀ r ∈ sortResults results, mergeOkB stores r = true :=
    fun r hr => hok r ((sortResults_perm results).mem_iff.mp hr)
  refine ⟨(importsAll stores canonical).foldl (impStep consolidate) dest0, ?_, ?_, ?_⟩
  · rw [run_ok_parts kwargs_list alloc stores dest0 consolidate fs0 results hoks, hsort]
  · rw [List.length_map]
    have hlen := congrArg List.length hidx
    rw [List.length_map, List.length_range] at hlen
    exact hlen
  · intro i hi
    have h1 : (canonical.map (fun r => r.index))[i]? = some i := by
      rw [hidx]
      exact List.getElem?_range hi
    rw [List.getElem?_map] at h1
    cases hc : canonical[i]? with
    | none =>
      rw [hc] at h1
      exact Option.noConfusion h1
    | some r =>
      rw [hc] at h1
      have hri : r.index = i := by simpa using h1
      have hrc : r ∈ canonical := List.getElem?_mem hc
      refine ⟨r, hperm.mem_iff.mpr hrc, hri, ?_⟩
      rw [List.getElem?_map, hc]
      rfl

/-- Concrete witness for C7: two tasks collected in reverse completion order. -/
theorem c7_witness :
    (([⟨1, false, none, none⟩, ⟨0, true, none, none⟩] : List TaskResult).Perm
      [⟨0, true, none, none⟩, ⟨1, false, none, none⟩]) ∧
    (([⟨0, true, none, none⟩, ⟨1, false, none, none⟩] : List TaskResult).map
      (fun r => r.index) = List.range ([[], []] : List KwArgs).length) ∧
    (∀ r ∈ ([⟨1, false, none, none⟩, ⟨0, true, none, none⟩] : List TaskResult),
      mergeOkB [] r = true) ∧
    (∃ dest, (function_multiprocessing [[], []] (fun _ => "t")
        (([⟨1, false, none, none⟩, ⟨0, true, none, none⟩] : List TaskResult).map Except.ok)
        [] [] true []).outcome
        = Except.ok ((([⟨0, true, none, none⟩, ⟨1, false, none, none⟩] :
            List TaskResult).map (fun r => r.success)), dest) ∧
      ((([⟨0, true, none, none⟩, ⟨1, false, none, none⟩] : List TaskResult).map
        (fun r => r.success)).length = ([[], []] : List KwArgs).length) ∧
      (∀ i, i < ([[], []] : List KwArgs).length →
        ∃ r, r ∈ ([⟨1, false, none, none⟩, ⟨0, true, none, none⟩] : List TaskResult) ∧
          r.index = i ∧
          ((([⟨0, true, none, none⟩, ⟨1, false, none, none⟩] : List TaskResult).map
            (fun r => r.success))[i]? = some r.success))) :=
  ⟨by decide, by decide, by decide,
    c7_returns_n_booleans_in_input_order [[], []] (fun _ => "t") [] [] true []
      [⟨1, false, none, none⟩, ⟨0, true, none, none⟩]
      [⟨0, true, none, none⟩, ⟨1, false, none, none⟩]
      (by decide) (by decide) (by decide)⟩

/-- Claim C1 (consolidation semantics modelled from the spec since
`resqpy.model` is not under `src/`): with `consolidate = true` against a fresh
destination, the merge processes results in ascending reported-index order
(line 94), so (i) two collections of the same batch in different completion
orders produce identical outcomes — in particular identical object count and
identical surviving representative for every equivalence class — and (ii)
every surviving object originates from the task whose index it carries, and
whenever any task's import contains an object equivalent to a surviving one,
the survivor's originating index is at most that task's index: the object
from the lowest-index producing task is always the surviving
representative. -/
theorem c1_consolidation_deterministic_lowest_index_wins (kwargs_list : List KwArgs)
    (alloc : Nat → String) (stores : StoreMap) (fs0 : List String)
    (results1 results2 : List TaskResult)
    (hperm : results1.Perm results2)
    (hnd : (results1.map (fun r => r.index)).Nodup)
    (hok : ∀ r ∈ results1, mergeOkB stores r = true)
    (htag : ∀ r ∈ results1, ∀ o ∈ ImportsOf stores r, o.origin = r.index) :
    ((function_multiprocessing kwargs_list alloc (results1.map Except.ok) stores [] true
        fs0).outcome
      = (function_multiprocessing kwargs_list alloc (results2.map Except.ok) stores [] true
        fs0).outcome) ∧
    ∃ dest, (function_multiprocessing kwargs_list alloc (results1.map Except.ok) stores []
        true fs0).outcome
        = Except.ok ((sortResults results1).map (fun r => r.success), dest) ∧
      (∀ o ∈ dest, ∃ r, r ∈ results1 ∧ o ∈ ImportsOf stores r ∧ o.origin = r.index) ∧
      (∀ o ∈ dest, ∀ r ∈ results1, ∀ q ∈ ImportsOf stores r,
        q.content = o.content → o.origin ≤ r.index) := by
  have hsort : sortResults results1 = sortResults results2 :=
    sortResults_congr results1 results2 hperm hnd
  have hoks1 : ∀ r ∈ sortResults results1, mergeOkB stores r = true :=
    fun r hr => hok r ((sortResults_perm results1).mem_iff.mp hr)
  have hoks2 : ∀ r ∈ sortResults results2, mergeOkB stores r = true := by
    rw [← hsort]
    exact hoks1
  constructor
  · rw [run_ok_parts kwargs_list alloc stores [] true fs0 results1 hoks1,
      run_ok_parts kwargs_list alloc stores [] true fs0 results2 hoks2, hsort]
  · refine ⟨(importsAll stores (sortResults results1)).foldl (impStep true) [], ?_, ?_, ?_⟩
    · rw [run_ok_parts kwargs_list alloc stores [] true fs0 results1 hoks1]
    · intro o ho
      rcases foldl_step_mem (importsAll stores (sortResults results1)) [] o ho with h1 | h1
      · exact absurd h1 (List.not_mem_nil o)
      · obtain ⟨r, hr, hor⟩ := importsAll_mem stores (sortResults results1) o h1
        have hrr : r ∈ results1 := (sortResults_perm results1).mem_iff.mp hr
        exact ⟨r, hrr, hor, htag r hrr o hor⟩
    · intro o ho r hr q hq hcq
      have hpair : (importsAll stores (sortResults results1)).Pairwise
          (fun a b => a.origin ≤ b.origin) := by
        refine importsAll_pairwise stores (sortResults results1)
          (sortResults_pairwise results1) ?_
        intro r1 hr1 o1 ho1
        exact htag r1 ((sortResults_perm results1).mem_iff.mp hr1) o1 ho1
      have hdom : ∀ o1 ∈ ([] : Store), ∀ q1 ∈ importsAll stores (sortResults results1),
          q1.content = o1.content → o1.origin ≤ q1.origin :=
        fun o1 ho1 => absurd ho1 (List.not_mem_nil o1)
      have hmin := foldl_step_min (importsAll stores (sortResults results1)) [] hpair hdom
        o ho q
        (importsAll_mem_of stores (sortResults results1) r q
          ((sortResults_perm results1).mem_iff.mpr hr) hq) hcq
      rw [htag r hr q hq] at hmin
      exact hmin

/-- Concrete witness for C1: two tasks producing equivalent objects (same
content, different uuids), collected in opposite orders; the survivor is task
0's object. -/
theorem c1_witness :
    (([⟨0, true, some "p", none⟩, ⟨1, true, some "q", none⟩] : List TaskResult).Perm
      [⟨1, true, some "q", none⟩, ⟨0, true, some "p", none⟩]) ∧
    (([⟨0, true, some "p", none⟩, ⟨1, true, some "q", none⟩] : List TaskResult).map
      (fun r => r.index)).Nodup ∧
    (∀ r ∈ ([⟨0, true, some "p", none⟩, ⟨1, true, some "q", none⟩] : List TaskResult),
      mergeOkB [("p", [⟨"uA", 7, 0⟩]), ("q", [⟨"uB", 7, 1⟩])] r = true) ∧
    (∀ r ∈ ([⟨0, true, some "p", none⟩, ⟨1, true, some "q", none⟩] : List TaskResult),
      ∀ o ∈ ImportsOf [("p", [⟨"uA", 7, 0⟩]), ("q", [⟨"uB", 7, 1⟩])] r,
        o.origin = r.index) ∧
    (((function_multiprocessing [[], []] (fun _ => "t")
        (([⟨0, true, some "p", none⟩, ⟨1, true, some "q", none⟩] :
          List TaskResult).map Except.ok)
        [("p", [⟨"uA", 7, 0⟩]), ("q", [⟨"uB", 7, 1⟩])] [] true []).outcome
      = (function_multiprocessing [[], []] (fun _ => "t")
        (([⟨1, true, some "q", none⟩, ⟨0, true, some "p", none⟩] :
          List TaskResult).map Except.ok)
        [("p", [⟨"uA", 7, 0⟩]), ("q", [⟨"uB", 7, 1⟩])] [] true []).outcome) ∧
    ∃ dest, (function_multiprocessing [[], []] (fun _ => "t")
        (([⟨0, true, some "p", none⟩, ⟨1, true, some "q", none⟩] :
          List TaskResult).map Except.ok)
        [("p", [⟨"uA", 7, 0⟩]), ("q", [⟨"uB", 7, 1⟩])] [] true []).outcome
        = Except.ok ((sortResults [⟨0, true, some "p", none⟩,
            ⟨1, true, some "q", none⟩]).map (fun r => r.success), dest) ∧
      (∀ o ∈ dest, ∃ r, r ∈ ([⟨0, true, some "p", none⟩, ⟨1, true, some "q", none⟩] :
          List TaskResult) ∧
        o ∈ ImportsOf [("p", [⟨"uA", 7, 0⟩]), ("q", [⟨"uB", 7, 1⟩])] r ∧
        o.origin = r.index) ∧
      (∀ o ∈ dest, ∀ r ∈ ([⟨0, true, some "p", none⟩, ⟨1, true, some "q", none⟩] :
          List TaskResult),
        ∀ q ∈ ImportsOf [("p", [⟨"uA", 7, 0⟩]), ("q", [⟨"uB", 7, 1⟩])] r,
          q.content = o.content → o.origin ≤ r.index)) :=
  ⟨by decide, by decide, by decide, by decide,
    c1_consolidation_deterministic_lowest_index_wins [[], []] (fun _ => "t")
      [("p", [⟨"uA", 7, 0⟩]), ("q", [⟨"uB", 7, 1⟩])] []
      [⟨0, true, some "p", none⟩, ⟨1, true, some "q", none⟩]
      [⟨1, true, some "q", none⟩, ⟨0, true, some "p", none⟩]
      (by decide) (by decide) (by decide) (by decide)⟩

end Resqpy
